import Mathlib

/-!
Verification of the GMN Adapter queue store (`gmn_adapter/db/adapter_db.py`).

The source is a Python/SQLAlchemy module persisting queue rows in SQLite.
We shallow-embed it as pure functions over a list of rows:

* A `Queue` row mirrors the ORM model's columns.  The `identifier` and
  `revision` columns are declared `Integer` in the schema, but the Python
  code binds raw strings obtained from `package.split(".")`; SQLite's
  type affinity converts well-formed integer text to integers on storage
  and on comparison, and stores other text as-is (SQLite does not enforce
  column types).  We model stored values of those two columns with
  `SqlVal` (integer or text) and the affinity conversion with
  `intAffinity`.
* `datetime` values are modelled as integers: only their total order is
  used by the code (`order_by`).
* Python exceptions that escape a call are modelled by an `Option`-typed
  result: `none` means the call raised.  Exceptions caught inside a
  method (`IntegrityError` in `enqueue`, `NoResultFound` in `dequeue`,
  `get_event`, `is_dequeued`) do not produce `none`; the code logs them
  and returns normally, which we model by returning the unchanged state
  or an absent row.
* `session.query(...).one()` returns the row when exactly one matches,
  raises `NoResultFound` on zero matches and `MultipleResultsFound`
  (uncaught) on several; `.first()` after `order_by` returns the first
  row of the sorted result or `None` on an empty result.  We model
  `.order_by(k).first()` with `firstBy`, which returns the earliest
  element among those extremal for the sort key (SQL leaves the order of
  ties unspecified; every claim below involves distinct keys).
-/

namespace GmnAdapter

/-- A value stored in an SQLite column: either an SQLite INTEGER or TEXT.
SQLite storage classes are ordered INTEGER < TEXT for comparisons. -/
inductive SqlVal where
  | int (n : Int)
  | text (s : String)
deriving DecidableEq, Repr

/-- Whether a string is a well-formed integer literal (optional sign then
digits), the text shape SQLite's INTEGER affinity converts losslessly. -/
def isIntLiteral (s : String) : Bool :=
  match s.data with
  | [] => false
  | '-' :: t => decide (t ≠ []) && t.all fun c => c.isDigit
  | t => t.all fun c => c.isDigit

/-- Numeric value of a decimal digit sequence. -/
def digitsToNat (cs : List Char) : Nat :=
  cs.foldl (fun acc c => 10 * acc + (c.toNat - 48)) 0

/-- Numeric value of a well-formed integer literal. -/
def parseIntLit (s : String) : Int :=
  match s.data with
  | '-' :: t => -((digitsToNat t : Nat) : Int)
  | t => ((digitsToNat t : Nat) : Int)

/-- SQLite INTEGER-column affinity applied to a bound value: integer text
is converted to an integer; other text is kept as text. -/
def intAffinity (v : SqlVal) : SqlVal :=
  match v with
  | .int n => .int n
  | .text s => if isIntLiteral s then .int (parseIntLit s) else .text s

/-- Whether a stored value is an SQLite INTEGER. -/
def isIntVal : SqlVal → Bool
  | .int _ => true
  | .text _ => false

/-- SQLite `<` on stored values: integers compare numerically, any
integer sorts before any text, text compares by the BINARY collation
(byte order, which agrees with code-point order for UTF-8). -/
def sqlLt : SqlVal → SqlVal → Bool
  | .int m, .int n => decide (m < n)
  | .int _, .text _ => true
  | .text _, .int _ => false
  | .text s, .text t => decide (s < t)

/-- One row of the `queue` table (class `Queue` in `adapter_db.py`).
`(package, method)` is the composite primary key. -/
structure Queue where
  package : String
  scope : String
  identifier : SqlVal
  revision : SqlVal
  method : String
  datetime : Int
  owner : String
  doi : String
  dequeued : Bool
deriving DecidableEq, Repr

/-- The incoming event record `enqueue` consumes (the utility `Event`
class: package, method, datetime, owner, doi). -/
structure Event where
  package : String
  method : String
  datetime : Int
  owner : String
  doi : String
deriving DecidableEq, Repr

/-- Split a character list at every `'.'`, keeping empty parts, exactly as
Python's `str.split(".")` does on the underlying characters. -/
def splitOnDot (cs : List Char) : List (List Char) :=
  match cs with
  | [] => [[]]
  | c :: rest =>
    if c = '.' then [] :: splitOnDot rest
    else
      match splitOnDot rest with
      | [] => [[c]]
      | h :: t => (c :: h) :: t

/-- `scope, identifier, revision = package.split(".")`: Python tuple
unpacking succeeds only when the split yields exactly three parts,
otherwise the statement raises `ValueError`. -/
def splitPackage (package : String) : Option (String × String × String) :=
  match (splitOnDot package.data).map String.mk with
  | [a, b, c] => some (a, b, c)
  | _ => none

/-- The filter `Queue.package == package, Queue.method == method` used by
`dequeue`, `get_event` and `is_dequeued`. -/
def matchKey (package method : String) (r : Queue) : Bool :=
  decide (r.package = package) && decide (r.method = method)

/-- The row `enqueue` constructs once the event's package has been split
into `(scope, identifier, revision)`: the raw string parts are bound to
the `scope` (TEXT) and `identifier`/`revision` (INTEGER affinity)
columns, `dequeued` takes its `false` column default. -/
def enqueueRow (e : Event) (scope identifier revision : String) : Queue :=
  { package := e.package
    scope := scope
    identifier := intAffinity (SqlVal.text identifier)
    revision := intAffinity (SqlVal.text revision)
    method := e.method
    datetime := e.datetime
    owner := e.owner
    doi := e.doi
    dequeued := false }

/-- `QueueManager.enqueue`: split the package, build a row with
`dequeued = false` (the column default) and insert it.  A primary-key
violation raises `IntegrityError`, which is caught: the session is
rolled back and the store is unchanged.  A malformed package raises
`ValueError` out of the call (`none`) before anything is written. -/
def enqueue (store : List Queue) (e : Event) : Option (List Queue) :=
  match splitPackage e.package with
  | none => none
  | some (scope, identifier, revision) =>
    if store.any (matchKey e.package e.method) then some store
    else some (store ++ [enqueueRow e scope identifier revision])

/-- `QueueManager.dequeue`: `.one()` on the key filter, then set
`dequeued = True` and commit.  Zero matches raise `NoResultFound`, which
is caught and logged (state unchanged); several matches would raise
`MultipleResultsFound` out of the call (`none`), impossible under the
primary-key invariant. -/
def dequeue (store : List Queue) (package method : String) : Option (List Queue) :=
  match store.filter (matchKey package method) with
  | [] => some store
  | [_] =>
    some (store.map fun r =>
      if matchKey package method r then { r with dequeued := true } else r)
  | _ => none

/-- `QueueManager.get_event`: `.one()` on the key filter; `NoResultFound`
is caught and logged and the method returns `None` (the row is absent);
`MultipleResultsFound` would escape (`none`). -/
def get_event (store : List Queue) (package method : String) : Option (Option Queue) :=
  match store.filter (matchKey package method) with
  | [] => some none
  | [r] => some (some r)
  | _ => none

/-- `QueueManager.get_count`: `count(Queue.package)` over all rows. -/
def get_count (store : List Queue) : Nat :=
  store.length

/-- `.order_by(k).first()`: the earliest element among those extremal for
the comparison `better` (where `better a b` means `a` must sort strictly
before `b`), or `none` on an empty result. -/
def firstBy {α : Type} (better : α → α → Bool) : List α → Option α
  | [] => none
  | x :: xs =>
    match firstBy better xs with
    | none => some x
    | some m => if better m x then some m else some x

/-- `order_by(Queue.datetime)`: ascending datetime. -/
def dtAsc (a b : Queue) : Bool :=
  decide (a.datetime < b.datetime)

/-- `order_by(desc(Queue.datetime))`: descending datetime. -/
def dtDesc (a b : Queue) : Bool :=
  decide (b.datetime < a.datetime)

/-- `order_by(desc(Queue.revision))`: descending stored revision. -/
def revDesc (a b : Queue) : Bool :=
  sqlLt b.revision a.revision

/-- `QueueManager.get_head`: rows with `dequeued == False`, ordered by
`datetime` ascending, first row or `None`. -/
def get_head (store : List Queue) : Option Queue :=
  firstBy dtAsc (store.filter fun r => r.dequeued == false)

/-- `QueueManager.get_last_datetime`: all rows ordered by `datetime`
descending; the first row's datetime, or `None` when the table is
empty. -/
def get_last_datetime (store : List Queue) : Option Int :=
  (firstBy dtDesc store).map (·.datetime)

/-- The filter of `get_predecessor`: same scope, same identifier, strictly
smaller revision.  `identifier` and `revision` are INTEGER columns
compared against raw string parameters, so SQLite applies INTEGER
affinity to the string operand before comparing. -/
def predFilter (sc idv rev : String) (r : Queue) : Bool :=
  decide (r.scope = sc)
    && decide (r.identifier = intAffinity (SqlVal.text idv))
    && sqlLt r.revision (intAffinity (SqlVal.text rev))

/-- `QueueManager.get_predecessor`: split the package (a malformed package
raises `ValueError`, `none`), filter on scope/identifier/smaller
revision, order by revision descending, first row or `None`. -/
def get_predecessor (store : List Queue) (package : String) : Option (Option Queue) :=
  match splitPackage package with
  | none => none
  | some (sc, idv, rev) =>
    some (firstBy revDesc (store.filter (predFilter sc idv rev)))

/-- `QueueManager.is_dequeued`: `.one()` on the key filter; returns the
row's `dequeued` flag, or `None` (absent) when `NoResultFound` is caught. -/
def is_dequeued (store : List Queue) (package method : String) : Option (Option Bool) :=
  match store.filter (matchKey package method) with
  | [] => some none
  | [r] => some (some r.dequeued)
  | _ => none

/-- A `QueueManager` instance: the backing location (`Config.QUEUE`, an
SQLite file path or the `":memory:"` transient sentinel) and the rows of
its `queue` table. -/
structure QueueManager where
  queue : String
  rows : List Queue

/-- `Path(p).unlink()`: remove the file, raising `FileNotFoundError`
(`none`) when it does not exist.  The filesystem is modelled as the list
of existing paths. -/
def unlink (fs : List String) (p : String) : Option (List String) :=
  if p ∈ fs then some (fs.filter fun q => decide (q ≠ p)) else none

/-- `QueueManager.delete_queue`: close the session, drop the schema (and
with it every row), dispose of the engine, then remove the backing file
from disk unless the store is the in-memory one. -/
def delete_queue (qm : QueueManager) (fs : List String) :
    Option (QueueManager × List String) :=
  if qm.queue = ":memory:" then some ({ qm with rows := [] }, fs)
  else
    match unlink fs qm.queue with
    | none => none
    | some fsNew => some ({ qm with rows := [] }, fsNew)

/-- The primary-key invariant of the `queue` table: no two rows share the
composite key `(package, method)`. -/
def WF (store : List Queue) : Prop :=
  (store.map fun r => (r.package, r.method)).Nodup

instance (store : List Queue) : Decidable (WF store) :=
  inferInstanceAs (Decidable (List.Nodup _))

/-- The per-row update `dequeue` performs once `.one()` has located the
unique matching row: flip `dequeued` to true, touch nothing else. -/
def markDequeued (p m : String) (r : Queue) : Queue :=
  if matchKey p m r then { r with dequeued := true } else r

/-! ### Concrete fixtures used by the witness theorems -/

/-- Row produced by enqueuing package `a.1.9`. -/
def exR9 : Queue :=
  ⟨"a.1.9", "a", .int 1, .int 9, "createDataPackage", 1, "owner", "doi:9", false⟩

/-- Row produced by enqueuing package `a.1.10`. -/
def exR10 : Queue :=
  ⟨"a.1.10", "a", .int 1, .int 10, "createDataPackage", 2, "owner", "doi:10", false⟩

/-- Row produced by enqueuing package `a.1.2`. -/
def exR2 : Queue :=
  ⟨"a.1.2", "a", .int 1, .int 2, "createDataPackage", 3, "owner", "doi:2", false⟩

/-- The numeric-versus-lexicographic predecessor store: packages `a.1.9`,
`a.1.10`, `a.1.2` all enqueued. -/
def exPredStore : List Queue := [exR9, exR10, exR2]

/-- A generic enqueued row. -/
def exRow : Queue :=
  ⟨"edi.5.1", "edi", .int 5, .int 1, "createDataPackage", 10, "owner", "doi:a", false⟩

/-- An event that collides with `exRow` on `(package, method)` while
differing in every non-key field. -/
def exDupEvent : Event :=
  ⟨"edi.5.1", "createDataPackage", 20, "other_owner", "doi:b"⟩

/-- A fresh event for the enqueue/get_event round trip. -/
def exFreshEvent : Event :=
  ⟨"edi.5.2", "updateDataPackage", 30, "owner", "doi:c"⟩

/-- An event whose package has a non-numeric identifier and revision. -/
def exRawEvent : Event :=
  ⟨"a.b.c", "createDataPackage", 5, "owner", "doi:d"⟩

/-- An event whose package does not split into three parts. -/
def exBadEvent : Event :=
  ⟨"edi.1", "createDataPackage", 0, "owner", "doi:e"⟩

/-- Head-ordering fixture rows: distinct keys, timestamps 1 < 2 < 3. -/
def exT1 : Queue :=
  ⟨"edi.1.1", "edi", .int 1, .int 1, "createDataPackage", 1, "owner", "doi:1", false⟩

def exT2 : Queue :=
  ⟨"edi.2.1", "edi", .int 2, .int 1, "createDataPackage", 2, "owner", "doi:2", false⟩

def exT3 : Queue :=
  ⟨"edi.3.1", "edi", .int 3, .int 1, "createDataPackage", 3, "owner", "doi:3", false⟩

/-- A store mixing a dequeued row (latest timestamp) with a live one. -/
def exLastStore : List Queue :=
  [exT1, ⟨"edi.4.1", "edi", .int 4, .int 1, "createDataPackage", 9, "owner", "doi:4", true⟩]

/-- A file-backed manager and a filesystem containing its backing file. -/
def exFileManager : QueueManager :=
  ⟨"adapter_queue.sqlite", [exRow]⟩

def exFs : List String := ["adapter_queue.sqlite", "other_file"]

/-! ### Properties of `firstBy` (the `.order_by(k).first()` model) -/

theorem firstBy_cons_of_none {α : Type} {b : α → α → Bool} {xs : List α}
    (x : α) (h : firstBy b xs = none) : firstBy b (x :: xs) = some x := by
  rw [firstBy, h]

theorem firstBy_cons_of_some {α : Type} {b : α → α → Bool} {xs : List α} {m : α}
    (x : α) (h : firstBy b xs = some m) :
    firstBy b (x :: xs) = if b m x then some m else some x := by
  rw [firstBy, h]

/-- `.first()` returns `None` exactly on an empty result set. -/
theorem firstBy_eq_none_iff {α : Type} (b : α → α → Bool) (l : List α) :
    firstBy b l = none ↔ l = [] := by
  cases l with
  | nil => simp [firstBy]
  | cons x xs =>
    cases hx : firstBy b xs with
    | none => simp [firstBy_cons_of_none x hx]
    | some m =>
      rw [firstBy_cons_of_some x hx]
      constructor
      · intro h
        by_cases hb : b m x = true <;> simp [hb] at h
      · intro h
        exact absurd h (List.cons_ne_nil x xs)

/-- The row `.first()` returns comes from the result set. -/
theorem firstBy_mem {α : Type} {b : α → α → Bool} :
    ∀ {l : List α} {m : α}, firstBy b l = some m → m ∈ l := by
  intro l
  induction l with
  | nil => intro m h; simp [firstBy] at h
  | cons x xs ih =>
    intro m h
    cases hx : firstBy b xs with
    | none =>
      rw [firstBy_cons_of_none x hx] at h
      simp at h
      simp [h]
    | some mp =>
      rw [firstBy_cons_of_some x hx] at h
      by_cases hb : b mp x = true
      · rw [if_pos hb] at h
        simp at h
        exact List.mem_cons_of_mem x (ih (h ▸ hx))
      · rw [if_neg hb] at h
        simp at h
        simp [h]

/-- No element of the result set sorts strictly before the row `.first()`
returns, provided the comparison is a strict total order. -/
theorem firstBy_not_better {α : Type} {b : α → α → Bool}
    (hirr : ∀ x, b x x = false)
    (htrans : ∀ x y z, b x y = true → b y z = true → b x z = true)
    (hneg : ∀ x y z, b x y = false → b y z = false → b x z = false) :
    ∀ {l : List α} {m : α}, firstBy b l = some m → ∀ x ∈ l, b x m = false := by
  intro l
  induction l with
  | nil => intro m h; simp [firstBy] at h
  | cons x xs ih =>
    intro m h y hy
    cases hx : firstBy b xs with
    | none =>
      rw [firstBy_cons_of_none x hx] at h
      simp at h
      have hxs : xs = [] := (firstBy_eq_none_iff b xs).mp hx
      subst hxs
      simp at hy
      rw [← h, hy]
      exact hirr x
    | some mp =>
      rw [firstBy_cons_of_some x hx] at h
      by_cases hb : b mp x = true
      · rw [if_pos hb] at h
        simp at h
        rw [← h]
        rcases List.mem_cons.mp hy with hyx | hyxs
        · subst hyx
          by_contra hcon
          have hym : b y mp = true := by
            cases hv : b y mp
            · exact absurd hv hcon
            · rfl
          have hyy : b y y = true := htrans y mp y hym hb
          rw [hirr y] at hyy
          exact Bool.false_ne_true hyy
        · exact ih hx y hyxs
      · rw [if_neg hb] at h
        simp at h
        rw [← h]
        rcases List.mem_cons.mp hy with hyx | hyxs
        · subst hyx
          exact hirr y
        · have hymp : b y mp = false := ih hx y hyxs
          have hbf : b mp x = false := by
            cases hv : b mp x
            · rfl
            · exact absurd hv hb
          exact hneg y mp x hymp hbf

/-! ### `sqlLt` is a strict total order on stored values -/

theorem sqlLt_irrefl (a : SqlVal) : sqlLt a a = false := by
  cases a <;> simp [sqlLt]

theorem sqlLt_trans (a c d : SqlVal) (h1 : sqlLt a c = true)
    (h2 : sqlLt c d = true) : sqlLt a d = true := by
  cases a <;> cases c <;> cases d <;> simp_all [sqlLt]
  · omega
  · exact lt_trans h1 h2

theorem sqlLt_neg_trans (a c d : SqlVal) (h1 : sqlLt a c = false)
    (h2 : sqlLt c d = false) : sqlLt a d = false := by
  cases a <;> cases c <;> cases d <;> simp_all [sqlLt]
  · omega
  · exact le_trans h2 h1

/-! ### Bridge lemmas about the key filter -/

theorem matchKey_iff (p m : String) (r : Queue) :
    matchKey p m r = true ↔ r.package = p ∧ r.method = m := by
  simp [matchKey]

/-- Under the primary-key invariant, the key filter of a store containing
a matching row returns exactly that row. -/
theorem filter_key_of_mem {p m : String} {r0 : Queue}
    (hkey : matchKey p m r0 = true) :
    ∀ {store : List Queue}, WF store → r0 ∈ store →
      store.filter (matchKey p m) = [r0] := by
  have hkey0 : r0.package = p ∧ r0.method = m := (matchKey_iff p m r0).mp hkey
  intro store
  induction store with
  | nil => intro _ hmem; cases hmem
  | cons x xs ih =>
    intro hwf hmem
    have hnodup := hwf
    rw [WF, List.map_cons, List.nodup_cons] at hnodup
    obtain ⟨hhead, htail⟩ := hnodup
    rcases List.mem_cons.mp hmem with hx | hx
    · subst hx
      rw [List.filter_cons_of_pos hkey]
      have hnil : xs.filter (matchKey p m) = [] := by
        rw [List.filter_eq_nil_iff]
        intro a ha hcon
        have hka : a.package = p ∧ a.method = m := (matchKey_iff p m a).mp hcon
        apply hhead
        have heq : (r0.package, r0.method) = (a.package, a.method) := by
          rw [hka.1, hka.2, hkey0.1, hkey0.2]
        rw [heq]
        exact List.mem_map_of_mem _ ha
      rw [hnil]
    · have hxnot : ¬ (matchKey p m x = true) := by
        intro hc
        have hkx : x.package = p ∧ x.method = m := (matchKey_iff p m x).mp hc
        apply hhead
        have heq : (x.package, x.method) = (r0.package, r0.method) := by
          rw [hkx.1, hkx.2, hkey0.1, hkey0.2]
        rw [heq]
        exact List.mem_map_of_mem _ hx
      rw [List.filter_cons_of_neg hxnot]
      exact ih htail hx

/-! ### The claims -/

/-- C7: for every store state and every package string that does not split
into exactly three dot-delimited parts, `enqueue` of an event carrying
that package and `get_predecessor` of that package both raise
(`ValueError` from tuple unpacking, modelled as `none`) rather than
returning a recoverable absent result; the `ValueError` in `enqueue` is
raised before any row is constructed or added, so nothing is written. -/
theorem c7_malformed_package_raises (store : List Queue) (e : Event)
    (hmal : splitPackage e.package = none) :
    enqueue store e = none ∧ get_predecessor store e.package = none := by
  constructor
  · simp [enqueue, hmal]
  · simp [get_predecessor, hmal]

/-- Witness for C7: the two-part package `edi.1` makes both calls raise. -/
theorem c7_witness :
    enqueue exPredStore exBadEvent = none ∧
      get_predecessor exPredStore exBadEvent.package = none :=
  c7_malformed_package_raises exPredStore exBadEvent (by decide)

/-- C2: for every store state (satisfying the table's own invariant that
each stored package is a three-part dotted string) and every event whose
`(package, method)` pair already exists as a row, `enqueue` hits the
composite-primary-key `IntegrityError`, which is caught and logged and
the session rolled back: the call returns normally (`some`) and the
resulting store is exactly the old one — same row count, every field of
every row (including the pre-existing row) unchanged — so the store
remains usable. -/
theorem c2_duplicate_enqueue_unchanged (store : List Queue) (e : Event)
    (hpkgs : ∀ r ∈ store, (splitPackage r.package).isSome = true)
    (hdup : ∃ r ∈ store, r.package = e.package ∧ r.method = e.method) :
    enqueue store e = some store := by
  obtain ⟨r, hr, hpkg, hm⟩ := hdup
  have hsome : (splitPackage e.package).isSome = true := hpkg ▸ hpkgs r hr
  obtain ⟨⟨sc, idv, rev⟩, hsp⟩ := Option.isSome_iff_exists.mp hsome
  have hany : store.any (matchKey e.package e.method) = true :=
    List.any_eq_true.mpr ⟨r, hr, (matchKey_iff _ _ r).mpr ⟨hpkg, hm⟩⟩
  simp [enqueue, hsp, hany]

/-- Witness for C2: re-enqueuing `exRow`'s key over `[exRow]` leaves the
store exactly `[exRow]`. -/
theorem c2_witness : enqueue [exRow] exDupEvent = some [exRow] :=
  c2_duplicate_enqueue_unchanged [exRow] exDupEvent (by decide)
    ⟨exRow, by decide, by decide, by decide⟩

/-- C5: for every store state and every `(package, method)` pair matching
no row, `dequeue` catches the `NoResultFound` from `.one()` (logging it)
and returns normally with the store exactly as before: same row count,
every stored row untouched. -/
theorem c5_dequeue_missing_noop (store : List Queue) (p m : String)
    (hnone : ∀ r ∈ store, matchKey p m r = false) :
    dequeue store p m = some store := by
  have hfil : store.filter (matchKey p m) = [] := by
    rw [List.filter_eq_nil_iff]
    intro a ha
    simp [hnone a ha]
  simp [dequeue, hfil]

/-- Witness for C5: dequeuing an absent key from `[exRow]` is a no-op. -/
theorem c5_witness : dequeue [exRow] "edi.9.9" "deleteDataPackage" = some [exRow] :=
  c5_dequeue_missing_noop [exRow] "edi.9.9" "deleteDataPackage" (by decide)

/-! ### Shared lemmas about `dequeue` on a present key and fresh `enqueue` -/

theorem matchKey_markDequeued (p m : String) (r : Queue) :
    matchKey p m (markDequeued p m r) = matchKey p m r := by
  unfold markDequeued
  split
  · rfl
  · rfl

theorem markDequeued_idem (p m : String) (r : Queue) :
    markDequeued p m (markDequeued p m r) = markDequeued p m r := by
  by_cases hc : matchKey p m r = true
  · have h1 : markDequeued p m r = { r with dequeued := true } := by
      unfold markDequeued
      rw [if_pos hc]
    have h2 : matchKey p m { r with dequeued := true } = true := hc
    rw [h1]
    unfold markDequeued
    rw [if_pos h2]
  · have h1 : markDequeued p m r = r := by
      unfold markDequeued
      rw [if_neg hc]
    rw [h1]
    exact h1

theorem dequeue_of_filter_singleton {store : List Queue} {p m : String} {r0 : Queue}
    (hfil : store.filter (matchKey p m) = [r0]) :
    dequeue store p m = some (store.map (markDequeued p m)) := by
  unfold dequeue
  rw [hfil]
  rfl

theorem enqueue_fresh_eq (store : List Queue) (e : Event) (sc idv rev : String)
    (hsplit : splitPackage e.package = some (sc, idv, rev))
    (hnew : ∀ r ∈ store, matchKey e.package e.method r = false) :
    enqueue store e = some (store ++ [enqueueRow e sc idv rev]) := by
  have hany : store.any (matchKey e.package e.method) = false :=
    List.any_eq_false.mpr (fun r hr => by simp [hnew r hr])
  simp [enqueue, hsplit, hany]

/-- C6: for every store state (satisfying the primary-key invariant)
containing a row with key `(package, method)`, `dequeue` flips that
row's `dequeued` field to true and changes nothing else — every other
field of that row is copied, every other row is returned untouched by
`markDequeued`, and the row count is unchanged — and a second `dequeue`
of the same key leaves the store identical to the state after the
first. -/
theorem c6_dequeue_marks_only (store : List Queue) (p m : String) (r0 : Queue)
    (hwf : WF store) (hmem : r0 ∈ store) (hkey : matchKey p m r0 = true) :
    dequeue store p m = some (store.map (markDequeued p m)) ∧
      (store.map (markDequeued p m)).length = store.length ∧
      markDequeued p m r0 = { r0 with dequeued := true } ∧
      (∀ r ∈ store, matchKey p m r = false → markDequeued p m r = r) ∧
      dequeue (store.map (markDequeued p m)) p m
        = some (store.map (markDequeued p m)) := by
  have hfil := filter_key_of_mem hkey hwf hmem
  have hfil2 : (store.map (markDequeued p m)).filter (matchKey p m)
      = [markDequeued p m r0] := by
    rw [List.filter_map]
    have hcongr : store.filter (matchKey p m ∘ markDequeued p m)
        = store.filter (matchKey p m) :=
      List.filter_congr (fun a _ => matchKey_markDequeued p m a)
    rw [hcongr, hfil]
    rfl
  refine ⟨dequeue_of_filter_singleton hfil, List.length_map store _, ?_, ?_, ?_⟩
  · unfold markDequeued
    rw [if_pos hkey]
  · intro r _ hno
    unfold markDequeued
    rw [if_neg (by simp [hno])]
  · have h4 := dequeue_of_filter_singleton hfil2
    rw [List.map_map] at h4
    have hmapeq : store.map (markDequeued p m ∘ markDequeued p m)
        = store.map (markDequeued p m) :=
      List.map_congr_left (fun a _ => markDequeued_idem p m a)
    rw [hmapeq] at h4
    exact h4

/-- Witness for C6: dequeuing `exT1`'s key over `[exT1, exT2]` flips only
`exT1.dequeued`; a repeat dequeue is a no-op on the result. -/
theorem c6_witness :
    dequeue [exT1, exT2] "edi.1.1" "createDataPackage"
        = some ([exT1, exT2].map (markDequeued "edi.1.1" "createDataPackage")) ∧
      ([exT1, exT2].map (markDequeued "edi.1.1" "createDataPackage")).length
        = [exT1, exT2].length ∧
      markDequeued "edi.1.1" "createDataPackage" exT1 = { exT1 with dequeued := true } ∧
      (∀ r ∈ [exT1, exT2], matchKey "edi.1.1" "createDataPackage" r = false →
        markDequeued "edi.1.1" "createDataPackage" r = r) ∧
      dequeue ([exT1, exT2].map (markDequeued "edi.1.1" "createDataPackage"))
          "edi.1.1" "createDataPackage"
        = some ([exT1, exT2].map (markDequeued "edi.1.1" "createDataPackage")) :=
  c6_dequeue_marks_only [exT1, exT2] "edi.1.1" "createDataPackage" exT1
    (by decide) (by decide) (by decide)

/-- C10: `enqueue` performs no numeric validation of the package parts —
for every event whose package splits into exactly three dot-delimited
parts (and whose key is fresh, so the insert commits), the row is built
and inserted directly from the raw string parts, and a part that is not
an integer literal is stored as its raw text (SQLite INTEGER affinity
passes non-numeric text through unchanged) rather than being rejected. -/
theorem c10_enqueue_no_numeric_validation (store : List Queue) (e : Event)
    (sc idv rev : String)
    (hsplit : splitPackage e.package = some (sc, idv, rev))
    (hnew : ∀ r ∈ store, matchKey e.package e.method r = false) :
    enqueue store e = some (store ++ [enqueueRow e sc idv rev]) ∧
      (isIntLiteral idv = false →
        (enqueueRow e sc idv rev).identifier = SqlVal.text idv) ∧
      (isIntLiteral rev = false →
        (enqueueRow e sc idv rev).revision = SqlVal.text rev) := by
  refine ⟨enqueue_fresh_eq store e sc idv rev hsplit hnew, ?_, ?_⟩
  · intro hraw
    simp [enqueueRow, intAffinity, hraw]
  · intro hraw
    simp [enqueueRow, intAffinity, hraw]

/-- Witness for C10: the event with package `a.b.c` is accepted into the
empty store, its non-numeric identifier and revision stored as raw
text. -/
theorem c10_witness :
    enqueue [] exRawEvent
        = some ([] ++ [enqueueRow exRawEvent "a" "b" "c"]) ∧
      (isIntLiteral "b" = false →
        (enqueueRow exRawEvent "a" "b" "c").identifier = SqlVal.text "b") ∧
      (isIntLiteral "c" = false →
        (enqueueRow exRawEvent "a" "b" "c").revision = SqlVal.text "c") :=
  c10_enqueue_no_numeric_validation [] exRawEvent "a" "b" "c" (by decide) (by decide)

/-- C3: for every event whose package splits into three parts with
integer-literal identifier and revision and whose `(package, method)`
key is not yet stored, `enqueue` followed by `get_event` on that key
returns a row whose package, method, timestamp, owner and doi equal the
event's, whose `dequeued` field is false, and whose scope, identifier
(as an integer) and revision (as an integer) are the three parts of the
split. -/
theorem c3_enqueue_get_event_roundtrip (store : List Queue) (e : Event)
    (sc idv rev : String) (idN revN : Int)
    (hsplit : splitPackage e.package = some (sc, idv, rev))
    (hid : intAffinity (SqlVal.text idv) = SqlVal.int idN)
    (hrev : intAffinity (SqlVal.text rev) = SqlVal.int revN)
    (hnew : ∀ r ∈ store, matchKey e.package e.method r = false) :
    ∃ storeNew row, enqueue store e = some storeNew ∧
      get_event storeNew e.package e.method = some (some row) ∧
      row.package = e.package ∧ row.method = e.method ∧
      row.datetime = e.datetime ∧ row.owner = e.owner ∧ row.doi = e.doi ∧
      row.dequeued = false ∧ row.scope = sc ∧
      row.identifier = SqlVal.int idN ∧ row.revision = SqlVal.int revN := by
  refine ⟨store ++ [enqueueRow e sc idv rev], enqueueRow e sc idv rev,
    enqueue_fresh_eq store e sc idv rev hsplit hnew, ?_,
    rfl, rfl, rfl, rfl, rfl, rfl, rfl, ?_, ?_⟩
  · have hfilstore : store.filter (matchKey e.package e.method) = [] := by
      rw [List.filter_eq_nil_iff]
      intro a ha
      simp [hnew a ha]
    have hrowkey : matchKey e.package e.method (enqueueRow e sc idv rev) = true := by
      simp [matchKey, enqueueRow]
    have hfil : (store ++ [enqueueRow e sc idv rev]).filter
        (matchKey e.package e.method) = [enqueueRow e sc idv rev] := by
      rw [List.filter_append, hfilstore, List.filter_cons_of_pos hrowkey]
      rfl
    unfold get_event
    rw [hfil]
  · simp [enqueueRow, hid]
  · simp [enqueueRow, hrev]

/-- Witness for C3: enqueue `edi.5.2` / `updateDataPackage` over
`[exRow]`, then read it back. -/
theorem c3_witness :
    ∃ storeNew row, enqueue [exRow] exFreshEvent = some storeNew ∧
      get_event storeNew exFreshEvent.package exFreshEvent.method = some (some row) ∧
      row.package = exFreshEvent.package ∧ row.method = exFreshEvent.method ∧
      row.datetime = exFreshEvent.datetime ∧ row.owner = exFreshEvent.owner ∧
      row.doi = exFreshEvent.doi ∧
      row.dequeued = false ∧ row.scope = "edi" ∧
      row.identifier = SqlVal.int 5 ∧ row.revision = SqlVal.int 2 :=
  c3_enqueue_get_event_roundtrip [exRow] exFreshEvent "edi" "5" "2" 5 2
    (by decide) (by decide) (by decide) (by decide)

/-! ### The three sort comparisons are strict total orders -/

theorem dtAsc_irrefl (x : Queue) : dtAsc x x = false := by
  simp [dtAsc]

theorem dtAsc_trans (x y z : Queue) (h1 : dtAsc x y = true)
    (h2 : dtAsc y z = true) : dtAsc x z = true := by
  simp_all [dtAsc]
  omega

theorem dtAsc_neg_trans (x y z : Queue) (h1 : dtAsc x y = false)
    (h2 : dtAsc y z = false) : dtAsc x z = false := by
  simp_all [dtAsc]
  omega

theorem dtDesc_irrefl (x : Queue) : dtDesc x x = false := by
  simp [dtDesc]

theorem dtDesc_trans (x y z : Queue) (h1 : dtDesc x y = true)
    (h2 : dtDesc y z = true) : dtDesc x z = true := by
  simp_all [dtDesc]
  omega

theorem dtDesc_neg_trans (x y z : Queue) (h1 : dtDesc x y = false)
    (h2 : dtDesc y z = false) : dtDesc x z = false := by
  simp_all [dtDesc]
  omega

theorem revDesc_irrefl (x : Queue) : revDesc x x = false :=
  sqlLt_irrefl x.revision

theorem revDesc_trans (x y z : Queue) (h1 : revDesc x y = true)
    (h2 : revDesc y z = true) : revDesc x z = true :=
  sqlLt_trans z.revision y.revision x.revision h2 h1

theorem revDesc_neg_trans (x y z : Queue) (h1 : revDesc x y = false)
    (h2 : revDesc y z = false) : revDesc x z = false :=
  sqlLt_neg_trans z.revision y.revision x.revision h2 h1

/-- C8: for every store, `get_last_datetime` returns the timestamp of a
row with the overall largest timestamp among all rows — dequeued and
non-dequeued alike (the query has no `dequeued` filter) — and `None`
exactly when the store holds no rows. -/
theorem c8_get_last_datetime_max (store : List Queue) :
    (get_last_datetime store = none ↔ store = []) ∧
    (∀ t, get_last_datetime store = some t →
      (∃ r ∈ store, r.datetime = t) ∧ ∀ r ∈ store, r.datetime ≤ t) := by
  constructor
  · unfold get_last_datetime
    cases hx : firstBy dtDesc store with
    | none =>
      simpa using (firstBy_eq_none_iff dtDesc store).mp hx
    | some q =>
      simp only [Option.map_some']
      constructor
      · intro h
        cases h
      · intro h
        subst h
        simp [firstBy] at hx
  · intro t ht
    unfold get_last_datetime at ht
    cases hx : firstBy dtDesc store with
    | none =>
      rw [hx] at ht
      cases ht
    | some q =>
      rw [hx] at ht
      simp only [Option.map_some', Option.some_inj] at ht
      have hmem := firstBy_mem hx
      have hnb := firstBy_not_better dtDesc_irrefl dtDesc_trans dtDesc_neg_trans hx
      refine ⟨⟨q, hmem, ht⟩, ?_⟩
      intro r hr
      have hb := hnb r hr
      rw [← ht]
      simpa [dtDesc] using hb

/-- Witness for C8: over a store whose latest-timestamp row is dequeued,
the returned timestamp 9 is carried by a stored row and bounds all
rows. -/
theorem c8_witness :
    (∃ r ∈ exLastStore, r.datetime = 9) ∧ ∀ r ∈ exLastStore, r.datetime ≤ 9 :=
  (c8_get_last_datetime_max exLastStore).2 9 (by decide)

/-- C4: for every store, `get_head` returns `None` exactly when every row
is dequeued, and otherwise a non-dequeued row of minimal timestamp; in
particular for a store of three rows with distinct timestamps
`T1 < T2 < T3`, all live and with distinct keys, `get_head` returns the
`T1` row, dequeuing that row's key flips only its `dequeued` flag, and
`get_head` then returns the `T2` row. -/
theorem c4_get_head_ordering (store : List Queue) :
    (get_head store = none ↔ ∀ r ∈ store, r.dequeued = true) ∧
    (∀ q, get_head store = some q → q ∈ store ∧ q.dequeued = false ∧
      ∀ r ∈ store, r.dequeued = false → q.datetime ≤ r.datetime) ∧
    (∀ r1 r2 r3 : Queue,
      r1.dequeued = false → r2.dequeued = false → r3.dequeued = false →
      r1.datetime < r2.datetime → r2.datetime < r3.datetime →
      matchKey r1.package r1.method r2 = false →
      matchKey r1.package r1.method r3 = false →
      get_head [r1, r2, r3] = some r1 ∧
        dequeue [r1, r2, r3] r1.package r1.method
          = some [{ r1 with dequeued := true }, r2, r3] ∧
        get_head [{ r1 with dequeued := true }, r2, r3] = some r2) := by
  refine ⟨?_, ?_, ?_⟩
  · unfold get_head
    rw [firstBy_eq_none_iff, List.filter_eq_nil_iff]
    constructor
    · intro h r hr
      have hb := h r hr
      simpa using hb
    · intro h r hr
      simp [h r hr]
  · intro q hq
    unfold get_head at hq
    have hmemf := firstBy_mem hq
    have hmem : q ∈ store := (List.mem_filter.mp hmemf).1
    have hdq : q.dequeued = false := by
      have hb := (List.mem_filter.mp hmemf).2
      simpa using hb
    refine ⟨hmem, hdq, ?_⟩
    intro r hr hrd
    have hrf : r ∈ store.filter fun s => s.dequeued == false :=
      List.mem_filter.mpr ⟨hr, by simp [hrd]⟩
    have hb := firstBy_not_better dtAsc_irrefl dtAsc_trans dtAsc_neg_trans hq r hrf
    simpa [dtAsc] using hb
  · intro r1 r2 r3 hd1 hd2 hd3 h12 h23 hk2 hk3
    have hb21 : dtAsc r2 r1 = false := by
      simp [dtAsc]
      omega
    have hb32 : dtAsc r3 r2 = false := by
      simp [dtAsc]
      omega
    have hf3 : firstBy dtAsc [r3] = some r3 := rfl
    have hf23 : firstBy dtAsc [r2, r3] = some r2 := by
      rw [firstBy_cons_of_some r2 hf3, hb32]
      rfl
    have hf123 : firstBy dtAsc [r1, r2, r3] = some r1 := by
      rw [firstBy_cons_of_some r1 hf23, hb21]
      rfl
    have hk1 : matchKey r1.package r1.method r1 = true := by
      simp [matchKey]
    refine ⟨?_, ?_, ?_⟩
    · unfold get_head
      rw [List.filter_cons_of_pos (by simp [hd1]),
        List.filter_cons_of_pos (by simp [hd2]),
        List.filter_cons_of_pos (by simp [hd3])]
      exact hf123
    · have hfil : ([r1, r2, r3]).filter (matchKey r1.package r1.method) = [r1] := by
        rw [List.filter_cons_of_pos hk1, List.filter_cons_of_neg (by simp [hk2]),
          List.filter_cons_of_neg (by simp [hk3])]
        rfl
      have hde := dequeue_of_filter_singleton hfil
      have hm1 : markDequeued r1.package r1.method r1 = { r1 with dequeued := true } := by
        unfold markDequeued
        rw [if_pos hk1]
      have hm2 : markDequeued r1.package r1.method r2 = r2 := by
        unfold markDequeued
        rw [if_neg (by simp [hk2])]
      have hm3 : markDequeued r1.package r1.method r3 = r3 := by
        unfold markDequeued
        rw [if_neg (by simp [hk3])]
      rw [hde]
      simp only [List.map_cons, List.map_nil, hm1, hm2, hm3]
    · unfold get_head
      rw [List.filter_cons_of_neg (by simp),
        List.filter_cons_of_pos (by simp [hd2]),
        List.filter_cons_of_pos (by simp [hd3])]
      exact hf23

/-- Witness for C4: the three-row scenario at timestamps 1 < 2 < 3. -/
theorem c4_witness :
    get_head [exT1, exT2, exT3] = some exT1 ∧
      dequeue [exT1, exT2, exT3] exT1.package exT1.method
        = some [{ exT1 with dequeued := true }, exT2, exT3] ∧
      get_head [{ exT1 with dequeued := true }, exT2, exT3] = some exT2 :=
  (c4_get_head_ordering [exT1, exT2, exT3]).2.2 exT1 exT2 exT3
    (by decide) (by decide) (by decide) (by decide) (by decide) (by decide) (by decide)

/-- C1: for every store whose stored revisions are SQLite integers and
every package splitting into three parts with an integer-literal
revision of value `revN`, `get_predecessor` returns normally, returns
`None` exactly when no row passes the scope/identifier/lower-revision
filter, and otherwise returns a filtered row whose integer revision `v`
satisfies `v < revN` and bounds the revision of every filtered row —
the numerically largest predecessor revision, not the lexicographically
largest (SQLite's INTEGER affinity converts the bound revision string
to an integer before comparing). -/
theorem c1_get_predecessor_numeric_max (store : List Queue)
    (pkg sc idv rev : String) (revN : Int)
    (hsplit : splitPackage pkg = some (sc, idv, rev))
    (hrev : intAffinity (SqlVal.text rev) = SqlVal.int revN)
    (hnum : ∀ r ∈ store, isIntVal r.revision = true) :
    ∃ res, get_predecessor store pkg = some res ∧
      (res = none ↔ ∀ r ∈ store, predFilter sc idv rev r = false) ∧
      (∀ q, res = some q → q ∈ store ∧ predFilter sc idv rev q = true ∧
        ∃ v : Int, q.revision = SqlVal.int v ∧ v < revN ∧
          ∀ r ∈ store, predFilter sc idv rev r = true →
            ∀ w : Int, r.revision = SqlVal.int w → w ≤ v) := by
  refine ⟨firstBy revDesc (store.filter (predFilter sc idv rev)), ?_, ?_, ?_⟩
  · unfold get_predecessor
    rw [hsplit]
  · rw [firstBy_eq_none_iff, List.filter_eq_nil_iff]
    constructor
    · intro h r hr
      have hb := h r hr
      simpa using hb
    · intro h r hr
      simp [h r hr]
  · intro q hq
    have hmemf := firstBy_mem hq
    have hmem : q ∈ store := (List.mem_filter.mp hmemf).1
    have hqf : predFilter sc idv rev q = true := (List.mem_filter.mp hmemf).2
    have hqi : isIntVal q.revision = true := hnum q hmem
    obtain ⟨v, hv⟩ : ∃ v : Int, q.revision = SqlVal.int v := by
      cases hqr : q.revision with
      | int n => exact ⟨n, rfl⟩
      | text s =>
        rw [hqr] at hqi
        cases hqi
    have hlt : sqlLt q.revision (intAffinity (SqlVal.text rev)) = true := by
      have hparts := hqf
      unfold predFilter at hparts
      exact (Bool.and_eq_true_iff.mp hparts).2
    rw [hv, hrev] at hlt
    have hvlt : v < revN := by
      simpa [sqlLt] using hlt
    refine ⟨hmem, hqf, v, hv, hvlt, ?_⟩
    intro r hr hrf w hw
    have hrfm : r ∈ store.filter (predFilter sc idv rev) :=
      List.mem_filter.mpr ⟨hr, hrf⟩
    have hb := firstBy_not_better revDesc_irrefl revDesc_trans revDesc_neg_trans hq r hrfm
    have hb2 : sqlLt q.revision r.revision = false := hb
    rw [hv, hw] at hb2
    simpa [sqlLt] using hb2

/-- Witness for C1: with `a.1.9`, `a.1.10`, `a.1.2` enqueued, the
predecessor query for `a.1.10` is characterised at revision bound 10. -/
theorem c1_witness :
    ∃ res, get_predecessor exPredStore "a.1.10" = some res ∧
      (res = none ↔ ∀ r ∈ exPredStore, predFilter "a" "1" "10" r = false) ∧
      (∀ q, res = some q → q ∈ exPredStore ∧ predFilter "a" "1" "10" q = true ∧
        ∃ v : Int, q.revision = SqlVal.int v ∧ v < 10 ∧
          ∀ r ∈ exPredStore, predFilter "a" "1" "10" r = true →
            ∀ w : Int, r.revision = SqlVal.int w → w ≤ v) :=
  c1_get_predecessor_numeric_max exPredStore "a.1.10" "a" "1" "10" 10
    (by decide) (by decide) (by decide)

/-- Numeric, not lexicographic: the concrete lookup of the claim's
example,  evaluated on the embedded code — among revisions 9 and 2 the
revision-9 row is returned, although the string comparison would have
put revision 9 above the string "10" and below "2". -/
theorem get_predecessor_example_returns_revision_9 :
    get_predecessor exPredStore "a.1.10" = some (some exR9) := by
  decide

/-- C9: for every manager whose backing location is the transient
`":memory:"` sentinel or a path present on disk, `delete_queue` returns
normally having dropped every row and the schema; a file-backed store's
backing file is removed (it no longer exists afterwards), while the
in-memory store performs no file removal and leaves the filesystem
untouched. -/
theorem c9_delete_queue_removes_file (qm : QueueManager) (fs : List String)
    (hok : qm.queue = ":memory:" ∨ qm.queue ∈ fs) :
    ∃ qmNew fsNew, delete_queue qm fs = some (qmNew, fsNew) ∧
      qmNew.rows = [] ∧ qmNew.queue = qm.queue ∧
      (qm.queue ≠ ":memory:" → qm.queue ∉ fsNew) ∧
      (qm.queue = ":memory:" → fsNew = fs) := by
  by_cases hm : qm.queue = ":memory:"
  · refine ⟨{ qm with rows := [] }, fs, ?_, rfl, rfl,
      fun hne => absurd hm hne, fun _ => rfl⟩
    simp [delete_queue, hm]
  · have hmem : qm.queue ∈ fs := hok.resolve_left hm
    refine ⟨{ qm with rows := [] }, fs.filter (fun q => decide (q ≠ qm.queue)),
      ?_, rfl, rfl, ?_, fun h => absurd h hm⟩
    · simp [delete_queue, hm, unlink, hmem]
    · intro _
      intro hcon
      have hb := (List.mem_filter.mp hcon).2
      simp at hb

/-- Witness for C9: deleting the file-backed `exFileManager` store leaves
a filesystem without its backing file. -/
theorem c9_witness :
    ∃ qmNew fsNew, delete_queue exFileManager exFs = some (qmNew, fsNew) ∧
      qmNew.rows = [] ∧ qmNew.queue = exFileManager.queue ∧
      (exFileManager.queue ≠ ":memory:" → exFileManager.queue ∉ fsNew) ∧
      (exFileManager.queue = ":memory:" → fsNew = exFs) :=
  c9_delete_queue_removes_file exFileManager exFs (Or.inr (by decide))

end GmnAdapter
